import Mathlib

/-
Verification of the SuperCollider OSC MCP server's procedural audio event
scheduler and voice-lifecycle manager.

The embedding models the Python tools of `server.py`, `advanced_synthesis.py`
and `soundscape_tools.py` as pure Lean functions.  External collaborators are
modelled as explicit inputs:
  * the wall clock and the random generator become oracle arguments
    (lists or functions supplying the values the Python code would read),
  * the UDP message sink becomes a trace of emitted commands,
  * the float math library's `sin` and `pi` become abstract parameters,
  * Python's raising float division becomes an `Except`-valued division.
Command payloads other than node ids (frequencies, amplitudes, pans) do not
affect any claim about voice lifecycles, ids or timing and are omitted from
the trace alphabet.
-/

set_option maxRecDepth 20000

/-- OSC commands emitted by the tools, keyed by the node id they act on.
`sNew` models `/s_new`, `nSet` models `/n_set`, `nFree` models `/n_free`. -/
inductive Cmd where
  | sNew : ℕ → Cmd
  | nSet : ℕ → Cmd
  | nFree : ℕ → Cmd
deriving DecidableEq

/-- Is the command a voice creation (`/s_new`)? -/
def isNewCmd : Cmd → Bool
  | Cmd.sNew _ => true
  | _ => false

/-- Is the command a voice release (`/n_free`)? -/
def isFreeCmd : Cmd → Bool
  | Cmd.nFree _ => true
  | _ => false

/-- Total number of `/s_new` commands in a trace. -/
def countNewTotal (tr : List Cmd) : ℕ := (tr.filter isNewCmd).length

/-- Total number of `/n_free` commands in a trace. -/
def countFreeTotal (tr : List Cmd) : ℕ := (tr.filter isFreeCmd).length

/-- The numeric clamp `max(lo, min(hi, x))` used throughout the tools,
for real-valued (float) parameters, modelled over ℚ. -/
def clampQ (lo hi x : ℚ) : ℚ := max lo (min hi x)

/-- The numeric clamp `max(lo, min(hi, int(x)))` used for integer parameters. -/
def clampZ (lo hi x : ℤ) : ℤ := max lo (min hi x)

/-- The (lo, hi) pairs of every float-valued clamp in the tools:
LFO rate (0.01, 10); depth / volume / ambient density / pitch_spread /
intensity / detune (0, 1); LFO duration (1, 60); layered and granular
duration (1, 30); play_synth duration (0.1, 30); granular density (0.1, 1);
grain_size (0.01, 0.5); duration_per_chord (1, 8). -/
def clampRangesQ : List (ℚ × ℚ) :=
  [(1/100, 10), (0, 1), (1, 60), (1, 30), (1/10, 30), (1/10, 1), (1/100, 1/2), (1, 8)]

/-- The (lo, hi) pairs of every integer-valued clamp in the tools:
chord-progression tempo (40, 180); other tempos (60, 240); beats (4, 32);
ambient duration (10, 120); rhythm duration (5, 120); num_layers (1, 5);
repeats (1, 8). -/
def clampRangesZ : List (ℤ × ℤ) :=
  [(40, 180), (60, 240), (4, 32), (10, 120), (5, 120), (1, 5), (1, 8)]

/-- `get_node_id` of `server.py`: `int(time.time() * 100) % 10000 + 1000`,
as a function of the sampled clock value `int(time.time() * 100)`. -/
def get_node_id (clock : ℕ) : ℕ := clock % 10000 + 1000

/-
Chord-name parsing of `create_chord_progression`
(`server.py` lines 729-793, duplicated in `advanced_synthesis.py`).
Chord tokens are modelled as their character lists.
-/

/-- The `note_to_semitone` table of `create_chord_progression`. -/
def note_to_semitone : List (List Char × ℕ) :=
  [(['C'], 0), (['C', '#'], 1), (['D', 'b'], 1), (['D'], 2), (['D', '#'], 3),
   (['E', 'b'], 3), (['E'], 4), (['F'], 5), (['F', '#'], 6), (['G', 'b'], 6),
   (['G'], 7), (['G', '#'], 8), (['A', 'b'], 8), (['A'], 9), (['A', '#'], 10),
   (['B', 'b'], 10), (['B'], 11)]

/-- The `chord_types` interval table of `create_chord_progression`. -/
def chord_types : List (List Char × List ℕ) :=
  [([], [0, 4, 7]), (['M'], [0, 4, 7]), (['m', 'a', 'j'], [0, 4, 7]),
   (['m'], [0, 3, 7]), (['m', 'i', 'n'], [0, 3, 7]),
   (['7'], [0, 4, 7, 10]), (['M', '7'], [0, 4, 7, 11]),
   (['m', 'a', 'j', '7'], [0, 4, 7, 11]), (['m', '7'], [0, 3, 7, 10]),
   (['m', 'i', 'n', '7'], [0, 3, 7, 10]), (['d', 'i', 'm'], [0, 3, 6]),
   (['d', 'i', 'm', '7'], [0, 3, 6, 9]), (['a', 'u', 'g'], [0, 4, 8]),
   (['s', 'u', 's', '2'], [0, 2, 7]), (['s', 'u', 's', '4'], [0, 5, 7]),
   (['a', 'd', 'd', '9'], [0, 4, 7, 14]),
   (['a', 'd', 'd', '1', '1'], [0, 4, 7, 17]), (['5'], [0, 7])]

/-- Association-list lookup, modelling Python's `dict` membership test and
indexing for the two chord tables. -/
def assocL {α : Type} : List (List Char × α) → List Char → Option α
  | [], _ => none
  | (k, v) :: rest, key => if k = key then some v else assocL rest key

/-- Root/quality split of a chord token: the leading two characters are tried
against the note-name table first (`chord_name[0:2] in note_to_semitone`),
falling back to a single character. -/
def splitRoot (cs : List Char) : List Char × List Char :=
  if 2 ≤ cs.length ∧ (assocL note_to_semitone (cs.take 2)).isSome then
    (cs.take 2, cs.drop 2)
  else (cs.take 1, cs.drop 1)

/-- Interval lookup for a chord-quality suffix:
`chord_types.get(chord_type, chord_types[""])`. -/
def chordIntervals (ct : List Char) : List ℕ :=
  (assocL chord_types ct).getD [0, 4, 7]

/-
Execution model of `create_chord_progression`
(`server.py` lines 705-937, duplicated in `advanced_synthesis.py`).

The function performs no wall-clock reads: it is a straight line of
`send_message` and `time.sleep` calls determined by its inputs, so it is
embedded as the list of those calls in program order.  Nominal time is then
accumulated over the list, and a runtime failure (cancellation, a raising
send, ...) during the n-th sleep is modelled by truncating the list at that
sleep: the function has no try/finally, so nothing after the failure point
executes.
-/

/-- One step of a tool invocation: send a command, or sleep for a duration. -/
inductive Act where
  | emit : Cmd → Act
  | sleep : ℚ → Act
deriving DecidableEq

/-- A command together with the nominal time at which it is sent. -/
structure TimedCmd where
  time : ℚ
  cmd : Cmd
deriving DecidableEq

/-- Assign nominal send times to the emitted commands, accumulating sleeps. -/
def actsToTrace (now : ℚ) : List Act → List TimedCmd
  | [] => []
  | Act.emit c :: rest => ⟨now, c⟩ :: actsToTrace now rest
  | Act.sleep d :: rest => actsToTrace (now + d) rest

/-- Number of `time.sleep` calls an action list performs. -/
def countSleeps : List Act → ℕ
  | [] => 0
  | Act.emit _ :: rest => countSleeps rest
  | Act.sleep _ :: rest => countSleeps rest + 1

/-- Cut an action list at its n-th sleep: the exception fires during that
sleep, so everything before it (the sleep's own waiting included, which emits
nothing) has happened and nothing after it does. -/
def truncAtSleep : ℕ → List Act → List Act
  | _, [] => []
  | n, Act.emit c :: rest => Act.emit c :: truncAtSleep n rest
  | 0, Act.sleep _ :: _ => []
  | n + 1, Act.sleep d :: rest => Act.sleep d :: truncAtSleep n rest

/-- The `n` back-to-back voice creations of the pad, staccato and default
styles, minting ids `base_id + node_counter` in order; returns the acts and
the minted id list. -/
def createN (baseId ctr : ℕ) : ℕ → List Act × List ℕ
  | 0 => ([], [])
  | n + 1 =>
    let r := createN baseId (ctr + 1) n
    (Act.emit (Cmd.sNew (baseId + ctr)) :: r.1, (baseId + ctr) :: r.2)

/-- Release each listed voice in order. -/
def freeActs (ids : List ℕ) : List Act := ids.map fun i => Act.emit (Cmd.nFree i)

/-- The arpeggio style: each note is created, held for 90% of its share `nd`
of the chord duration, freed, and followed by a 10% gap. -/
def arpActs (baseId ctr : ℕ) (nd : ℚ) : ℕ → List Act
  | 0 => []
  | n + 1 =>
    Act.emit (Cmd.sNew (baseId + ctr)) :: Act.sleep (nd * (9/10)) ::
      Act.emit (Cmd.nFree (baseId + ctr)) :: Act.sleep (nd * (1/10)) ::
      arpActs baseId (ctr + 1) nd n

/-- The power style's minted ids: for each of the intervals 0 and 7 in that
order, a voice is created only when the interval occurs in the chord. -/
def powerIds (baseId ctr : ℕ) (intervals : List ℕ) : List ℕ :=
  if 0 ∈ intervals then
    if 7 ∈ intervals then [baseId + ctr, baseId + ctr + 1] else [baseId + ctr]
  else if 7 ∈ intervals then [baseId + ctr] else []

/-- Play one recognized chord in the selected voicing style, returning the
acts and the updated `node_counter`. -/
def playChordActs (baseId ctr : ℕ) (style : String) (chordDur : ℚ)
    (intervals : List ℕ) : List Act × ℕ :=
  if style = "pad" then
    let r := createN baseId ctr intervals.length
    (r.1 ++ [Act.sleep chordDur] ++ freeActs r.2, ctr + intervals.length)
  else if style = "staccato" then
    let r := createN baseId ctr intervals.length
    (r.1 ++ [Act.sleep (chordDur * (1/4))] ++ freeActs r.2 ++
       [Act.sleep (chordDur * (3/4))], ctr + intervals.length)
  else if style = "arpeggio" then
    (arpActs baseId ctr (chordDur / (intervals.length : ℚ)) intervals.length,
     ctr + intervals.length)
  else if style = "power" then
    let ids := powerIds baseId ctr intervals
    (ids.map (fun i => Act.emit (Cmd.sNew i)) ++ [Act.sleep chordDur] ++
       freeActs ids, ctr + ids.length)
  else
    let r := createN baseId ctr intervals.length
    (r.1 ++ [Act.sleep chordDur] ++ freeActs r.2, ctr + intervals.length)

/-- The chord loop: empty tokens and unrecognized roots rest for the chord's
duration; recognized chords are played in the selected style. -/
def playChordsActs (baseId : ℕ) (style : String) (chordDur : ℚ) :
    List (List Char) → ℕ → List Act
  | [], _ => []
  | name :: rest, ctr =>
    if name = [] then Act.sleep chordDur :: playChordsActs baseId style chordDur rest ctr
    else
      let rt := splitRoot name
      match assocL note_to_semitone rt.1 with
      | some _ =>
        let r := playChordActs baseId ctr style chordDur (chordIntervals rt.2)
        r.1 ++ playChordsActs baseId style chordDur rest r.2
      | none => Act.sleep chordDur :: playChordsActs baseId style chordDur rest ctr

/-- Python's `str.split("-")` on a character list. -/
def splitOnDash : List Char → List (List Char)
  | [] => [[]]
  | '-' :: rest => [] :: splitOnDash rest
  | c :: rest =>
    match splitOnDash rest with
    | [] => [[c]]
    | g :: gs => (c :: g) :: gs

/-- Result of one `create_chord_progression` invocation: the timed trace of
commands actually sent, and whether an injected fault aborted the run. -/
structure ChordRun where
  trace : List TimedCmd
  aborted : Bool
deriving DecidableEq

/-- `create_chord_progression`: clamps tempo and per-chord duration, splits
the progression on `-`, computes `chord_duration = 60/tempo ·
duration_per_chord`, and plays each chord.  `baseId` is the `get_node_id()`
sample; `fault` optionally injects a runtime failure at the given sleep. -/
def create_chord_progression (progression style : String) (tempo : ℤ)
    (durationPerChord : ℚ) (baseId : ℕ) (fault : Option ℕ) : ChordRun :=
  let tempoC := clampZ 40 180 tempo
  let dpc := clampQ 1 8 durationPerChord
  let chordDur := 60 / (tempoC : ℚ) * dpc
  let acts := playChordsActs baseId style chordDur (splitOnDash progression.toList) 0
  match fault with
  | none => ⟨actsToTrace 0 acts, false⟩
  | some n => ⟨actsToTrace 0 (truncAtSleep n acts), decide (n < countSleeps acts)⟩

/-- Nominal creation time of the k-th voice in the C5 scenario: chord `k / 3`
starts at `4 * (k / 3)` seconds and its notes follow at even shares of
`4/3` seconds. -/
def c5NewTime (k : ℕ) : ℚ := 4 * ((k / 3 : ℕ) : ℚ) + (4/3) * ((k % 3 : ℕ) : ℚ)

/-- One expected create/free pair of the C5 scenario: the k-th voice is
created at `c5NewTime k` and freed `6/5` seconds later. -/
def c5Pair (b k : ℕ) : List TimedCmd :=
  [⟨c5NewTime k, Cmd.sNew (b + k)⟩, ⟨c5NewTime k + 6/5, Cmd.nFree (b + k)⟩]

/-- The expected C5 trace: twelve consecutive create/free pairs. -/
def c5ExpectedTrace (b : ℕ) : List TimedCmd := (List.range 12).flatMap (c5Pair b)

/-
The LFO tick of `create_lfo_modulation`
(`server.py` lines 393-503, duplicated in `advanced_synthesis.py` 21-131).

The float library's `sin` and the constant `math.pi` are abstract parameters
`sinf` and `piv`; the random generator's draw for the tick is the argument
`draw`; Python's `x % 1.0` on a non-negative float is `pymod1`.  The random
waveform's sample-and-hold state is the `prev` argument, `none` while
`lfo_value` is still unbound.
-/

/-- Python's `x % 1.0` (floored remainder). -/
def pymod1 (q : ℚ) : ℚ := q - (⌊q⌋ : ℤ)

/-- The `step_time` of the LFO loop:
`min(0.05, cycle_time / 20.0)` with `cycle_time = 1.0 / rate`. -/
def lfoStepTime (rate : ℚ) : ℚ := min (1/20) ((1 / rate) / 20)

/-- One tick's `lfo_value` computation, by waveform kind.  `elapsed` is the
wall-clock time since start, `prev` the previous tick's value (used only by
the random waveform's hold branch, where Python would leave `lfo_value`
unchanged — or unbound, modelled as `none`, if no draw has happened yet). -/
def lfoSample (sinf : ℚ → ℚ) (piv : ℚ) (waveform : String) (rate stepTime elapsed : ℚ)
    (prev : Option ℚ) (draw : ℚ) : Option ℚ :=
  if waveform = "sine" then
    some ((sinf (elapsed * rate * 2 * piv) + 1) / 2)
  else if waveform = "triangle" then
    let phase := pymod1 (elapsed * rate)
    if phase < 1/2 then some (phase * 2) else some (1 - (phase - 1/2) * 2)
  else if waveform = "square" then
    if pymod1 (elapsed * rate) < 1/2 then some 1 else some 0
  else if waveform = "random" then
    if pymod1 (elapsed * rate) < stepTime then some draw else prev
  else
    some ((sinf (elapsed * rate * 2 * piv) + 1) / 2)

/-- The parameter value sent after a tick:
`param_value = min_value + lfo_value * (max_value - min_value)`. -/
def lfoParamValue (minv maxv : ℚ) (v : Option ℚ) : Option ℚ :=
  v.map fun x => minv + x * (maxv - minv)

/-- The LFO loop over a list of ticks, each tick supplying its wall-clock
`elapsed` reading and the value `random.random()` would return; yields the
per-tick `lfo_value` sequence. -/
def lfoRun (sinf : ℚ → ℚ) (piv : ℚ) (waveform : String) (rate stepTime : ℚ) :
    Option ℚ → List (ℚ × ℚ) → List (Option ℚ)
  | _, [] => []
  | prev, (e, d) :: rest =>
    let v := lfoSample sinf piv waveform rate stepTime e prev d
    v :: lfoRun sinf piv waveform rate stepTime v rest

/-
Pattern evolution of `create_generative_rhythm`
(`soundscape_tools.py` lines 181-350, duplicated in `server.py`).
Each beat's random draws are supplied by oracles: `gates beat` is the
`random.random()` gating the evolution block, `kds/sds/hds beat i` are the
per-step draws for the kick, snare and hihat flip loops.
-/

/-- The three 16-step 0/1 patterns of `create_generative_rhythm`. -/
structure RhythmPatterns where
  kick : List ℕ
  snare : List ℕ
  hihat : List ℕ
deriving DecidableEq

/-- One instrument's evolution pass: step `i` is flipped (`1 - x`) exactly
when that step's draw is below the flip coefficient. -/
def flipPattern (coeff : ℚ) (draws : ℕ → ℚ) : ℕ → List ℕ → List ℕ
  | _, [] => []
  | i, x :: rest =>
    (if draws i < coeff then 1 - x else x) :: flipPattern coeff draws (i + 1) rest

/-- The evolution block: kick flips with coefficient `complexity · 0.5`,
snare with `complexity · 0.3`, hihat with `complexity · 0.7`. -/
def evolvePatterns (cx : ℚ) (kd sd hd : ℕ → ℚ) (ps : RhythmPatterns) :
    RhythmPatterns :=
  ⟨flipPattern (cx * (1/2)) kd 0 ps.kick,
   flipPattern (cx * (3/10)) sd 0 ps.snare,
   flipPattern (cx * (7/10)) hd 0 ps.hihat⟩

/-- One beat's effect on the patterns: on a beat divisible by 16 whose gate
draw is below `variation_rate` the patterns evolve, otherwise they are
untouched. -/
def beatStep (vr cx : ℚ) (gate : ℚ) (kd sd hd : ℕ → ℚ) (beat : ℕ)
    (ps : RhythmPatterns) : RhythmPatterns :=
  if beat % 16 = 0 ∧ gate < vr then evolvePatterns cx kd sd hd ps else ps

/-- The patterns after `n` further beats starting at beat number `beat`. -/
def rhythmPatternsRun (vr cx : ℚ) (gates : ℕ → ℚ) (kds sds hds : ℕ → ℕ → ℚ) :
    ℕ → ℕ → RhythmPatterns → RhythmPatterns
  | _, 0, ps => ps
  | beat, n + 1, ps =>
    rhythmPatternsRun vr cx gates kds sds hds (beat + 1) n
      (beatStep vr cx (gates beat) (kds beat) (sds beat) (hds beat) beat ps)

/-- The `minimal` style's initial kick pattern. -/
def minimalKick : List ℕ := [1, 0, 0, 0, 1, 0, 0, 0, 1, 0, 0, 0, 1, 0, 0, 0]

/-- The `minimal` style's initial snare pattern. -/
def minimalSnare : List ℕ := [0, 0, 0, 0, 1, 0, 0, 0, 0, 0, 0, 0, 1, 0, 0, 0]

/-- The `minimal` style's initial hihat pattern. -/
def minimalHihat : List ℕ := [1, 0, 1, 0, 1, 0, 1, 0, 1, 0, 1, 0, 1, 0, 1, 0]

/-- The `minimal` style's initial patterns. -/
def minimalPatterns : RhythmPatterns := ⟨minimalKick, minimalSnare, minimalHihat⟩

/-
Execution model of `create_granular_texture`
(`server.py` lines 619-703, duplicated in `advanced_synthesis.py` 246-330).

Each loop iteration's wall-clock reads and random draw come from a
`GrainIter` oracle record; the loop runs while the clock sample stays below
the deadline and the oracle list lasts.  Python's float division raises on a
zero divisor, which the grain amplitude computation performs with
`pitch_spread` as divisor before the grain's `/s_new` is sent; the model
returns the error exactly there.  The `finally` block frees every id still
in `active_nodes` on both exit paths.
-/

/-- Python's raising float division: `a / b` raises `ZeroDivisionError`
when `b == 0`. -/
def pydiv (a b : ℚ) : Except String ℚ :=
  if b = 0 then Except.error "float division by zero" else Except.ok (a / b)

/-- One grain's amplitude factor:
`1.0 - (abs(pitch_variation - 1.0) / pitch_spread) * 0.5`. -/
def grainAmpFactor (pitchVariation ps : ℚ) : Except String ℚ :=
  (pydiv |pitchVariation - 1| ps).map fun q => 1 - q * (1/2)

/-- One granular-loop iteration's oracle data: the wall-clock sample of the
while condition, the `random.random()` pitch draw, the clock sample used for
the grain's expiry stamp, and the clock sample of the expiry sweep. -/
structure GrainIter where
  tCheck : ℚ
  draw : ℚ
  tAfter : ℚ
  tExpire : ℚ
deriving DecidableEq

/-- The expiry sweep: split `active_nodes` into the grains whose expiry is
at or before the sweep time (freed now, in insertion order) and the rest. -/
def expireSplit (c : ℚ) (l : List (ℕ × ℚ)) : List (ℕ × ℚ) × List (ℕ × ℚ) :=
  (l.filter fun p => decide (p.2 ≤ c), l.filter fun p => ! decide (p.2 ≤ c))

/-- The main granular loop.  State: the next node id (incremented per grain)
and the `active_nodes` map as an insertion-ordered list of (id, expiry)
pairs.  Returns the emitted commands, the remaining `active_nodes`, and
whether a `ZeroDivisionError` aborted the loop. -/
def granLoop (psv gsize endTime : ℚ) : ℕ → List (ℕ × ℚ) → List GrainIter →
    List Cmd × List (ℕ × ℚ) × Bool
  | _, active, [] => ([], active, false)
  | nextId, active, it :: rest =>
    if it.tCheck < endTime then
      match grainAmpFactor (1 + (it.draw * 2 - 1) * psv) psv with
      | Except.error _ => ([], active, true)
      | Except.ok _ =>
        let sp := expireSplit it.tExpire (active ++ [(nextId, it.tAfter + gsize)])
        let r := granLoop psv gsize endTime (nextId + 1) sp.2 rest
        (Cmd.sNew nextId :: (sp.1.map (fun p => Cmd.nFree p.1) ++ r.1),
         r.2.1, r.2.2)
    else ([], active, false)

/-- Result of one `create_granular_texture` invocation: the commands sent
(the `finally` frees included) and whether an exception propagated. -/
structure GranResult where
  trace : List Cmd
  err : Bool
deriving DecidableEq

/-- `create_granular_texture`: clamps its inputs, computes the effective
grain size `grain_size * (1.2 - density * 0.2)`, runs the grain loop until
`t0 + duration`, and finally frees every remaining active node. -/
def create_granular_texture (density grainSize pitchSpread duration t0 : ℚ)
    (startId : ℕ) (iters : List GrainIter) : GranResult :=
  let d := clampQ (1/10) 1 density
  let gsize := clampQ (1/100) (1/2) grainSize * (6/5 - d * (1/5))
  let psv := clampQ 0 1 pitchSpread
  let dur := clampQ 1 30 duration
  let r := granLoop psv gsize (t0 + dur) startId [] iters
  ⟨r.1 ++ r.2.1.map (fun p => Cmd.nFree p.1), r.2.2⟩

/-- Occurrences of an id in an `active_nodes` list. -/
def idCount (l : List (ℕ × ℚ)) (id : ℕ) : ℕ :=
  l.countP fun p => decide (p.1 = id)

/-
Execution model of `create_ambient_soundscape`
(`soundscape_tools.py` lines 21-179, duplicated in `server.py` 939-1097).

The background drone `base_id` is created first and stays in `active_nodes`.
Each of the up-to-`num_events` loop iterations is driven by an `AmbIter`
oracle record deciding the branches the wall clock and random draws take:
whether the deadline check breaks the loop, whether the event is skipped
(`event_dur <= 0`), and whether the event's node is freed at the end of the
iteration (`event_dur < 5.0 or random.random() < 0.7`) or kept.  The
`finally` block frees every id still in `active_nodes`.  The `/n_set`
modulation messages touch no voice lifecycle and are omitted.
-/

/-- One ambient-event iteration's oracle data. -/
structure AmbIter where
  earlyBreak : Bool
  skipEv : Bool
  freeNow : Bool
deriving DecidableEq

/-- The ambient event loop: event `i` mints id `base_id + 100 + i`; a freed
event is removed from `active_nodes` (`list.remove`, first occurrence). -/
def ambLoop (base : ℕ) : List AmbIter → ℕ → List ℕ → List Cmd × List ℕ
  | [], _, active => ([], active)
  | it :: rest, i, active =>
    if it.earlyBreak then ([], active)
    else if it.skipEv then ambLoop base rest (i + 1) active
    else if it.freeNow then
      let r := ambLoop base rest (i + 1)
        ((active ++ [base + 100 + i]).erase (base + 100 + i))
      (Cmd.sNew (base + 100 + i) :: Cmd.nFree (base + 100 + i) :: r.1, r.2)
    else
      let r := ambLoop base rest (i + 1) (active ++ [base + 100 + i])
      (Cmd.sNew (base + 100 + i) :: r.1, r.2)

/-- `create_ambient_soundscape`: create the background drone, run the event
loop, and finally free every remaining active node. -/
def create_ambient_soundscape (base : ℕ) (iters : List AmbIter) : List Cmd :=
  let r := ambLoop base iters 0 [base]
  Cmd.sNew base :: (r.1 ++ r.2.map Cmd.nFree)

/-- Generic specification of `max lo (min hi ·)`: for `lo ≤ hi` the result is
inside `[lo, hi]` and the function is monotone. -/
theorem clamp_spec {α : Type} [LinearOrder α] (lo hi x y : α)
    (hlohi : lo ≤ hi) (hxy : x ≤ y) :
    lo ≤ max lo (min hi x) ∧ max lo (min hi x) ≤ hi ∧
      max lo (min hi x) ≤ max lo (min hi y) :=
  ⟨le_max_left _ _, max_le hlohi (min_le_left _ _),
    max_le_max le_rfl (min_le_min le_rfl hxy)⟩

/-- Claim C8: every numeric input clamp applied by the tools returns a value
inside its documented `[lo, hi]` range and is monotonically non-decreasing in
its input; being a total function it never rejects an out-of-range value. -/
theorem clamp_c8 :
    (∀ p ∈ clampRangesQ, ∀ x y : ℚ, x ≤ y →
       p.1 ≤ clampQ p.1 p.2 x ∧ clampQ p.1 p.2 x ≤ p.2 ∧
         clampQ p.1 p.2 x ≤ clampQ p.1 p.2 y) ∧
    (∀ p ∈ clampRangesZ, ∀ x y : ℤ, x ≤ y →
       p.1 ≤ clampZ p.1 p.2 x ∧ clampZ p.1 p.2 x ≤ p.2 ∧
         clampZ p.1 p.2 x ≤ clampZ p.1 p.2 y) := by
  constructor
  · intro p hp x y hxy
    fin_cases hp <;> exact clamp_spec _ _ _ _ (by norm_num) hxy
  · intro p hp x y hxy
    fin_cases hp <;> exact clamp_spec _ _ _ _ (by norm_num) hxy

/-- Witness for C8: the LFO-duration clamp at the out-of-range input `-5`. -/
theorem clamp_c8_witness :
    (1 : ℚ) ≤ clampQ 1 60 (-5) ∧ clampQ 1 60 (-5) ≤ 60 ∧
      clampQ 1 60 (-5) ≤ clampQ 1 60 100 :=
  clamp_c8.1 (1, 60) (by norm_num [clampRangesQ]) (-5) 100 (by norm_num)

/-- Claim C10: every base node id lies in `[1000, 10999]`; band offsets such
as `+3000` can leave that window; two clock samples that agree modulo 10000
yield the same id. -/
theorem get_node_id_c10 :
    (∀ c, 1000 ≤ get_node_id c ∧ get_node_id c ≤ 10999) ∧
    (∃ c, 10999 < get_node_id c + 3000) ∧
    (∃ c₁ c₂, c₁ ≠ c₂ ∧ get_node_id c₁ = get_node_id c₂) := by
  refine ⟨fun c => ?_, ⟨9999, by decide⟩, ⟨0, 10000, by decide, by decide⟩⟩
  unfold get_node_id
  have h := Nat.mod_lt c (show 0 < 10000 by norm_num)
  omega

/-- Claim C4: chord tokens are parsed by matching the leading two characters
against the note-name table before falling back to one character; `C` yields
quality `""` with intervals `[0,4,7]`, `Am` yields root A with `[0,3,7]`,
`Bb7` yields the two-character flat root Bb with `[0,4,7,10]`, and every
unrecognized quality suffix defaults to the major triad. -/
theorem chord_parse_c4 :
    (splitRoot ['C'] = (['C'], []) ∧ assocL note_to_semitone ['C'] = some 0 ∧
       chordIntervals [] = [0, 4, 7]) ∧
    (splitRoot ['A', 'm'] = (['A'], ['m']) ∧
       assocL note_to_semitone ['A'] = some 9 ∧
       chordIntervals ['m'] = [0, 3, 7]) ∧
    (splitRoot ['B', 'b', '7'] = (['B', 'b'], ['7']) ∧
       assocL note_to_semitone ['B', 'b'] = some 10 ∧
       chordIntervals ['7'] = [0, 4, 7, 10]) ∧
    (∀ ct, assocL chord_types ct = none → chordIntervals ct = [0, 4, 7]) := by
  refine ⟨by decide, by decide, by decide, ?_⟩
  intro ct h
  simp [chordIntervals, h]

/-- Witness for C4: the unrecognized quality suffix `q` falls back to the
major triad. -/
theorem chord_parse_c4_witness :
    chordIntervals ['q'] = [0, 4, 7] :=
  chord_parse_c4.2.2.2 ['q'] (by decide)

/-- Claim C5: `create_chord_progression("C-G-Am-F", "arpeggio", 60, 4.0)`
produces exactly 4 × 3 = 12 sequential create/free pairs, each voice held
for `(4·1.0)/3 · 0.9 = 6/5` seconds, and each next creation follows the
previous free after exactly the 10%-of-note-duration gap `2/15`, so no two
of the voices are ever live at the same time. -/
theorem chord_progression_c5 (b : ℕ) :
    (create_chord_progression "C-G-Am-F" "arpeggio" 60 4 b none).trace
        = c5ExpectedTrace b ∧
    (create_chord_progression "C-G-Am-F" "arpeggio" 60 4 b none).aborted = false ∧
    countNewTotal (((create_chord_progression "C-G-Am-F" "arpeggio" 60 4 b
        none).trace).map TimedCmd.cmd) = 12 ∧
    countFreeTotal (((create_chord_progression "C-G-Am-F" "arpeggio" 60 4 b
        none).trace).map TimedCmd.cmd) = 12 ∧
    (∀ k, k < 11 → c5NewTime (k + 1) = c5NewTime k + 6/5 + 2/15) := by
  have hr : List.range 12 = [0, 1, 2, 3, 4, 5, 6, 7, 8, 9, 10, 11] := by decide
  have hs : splitOnDash ("C-G-Am-F".toList) = [['C'], ['G'], ['A', 'm'], ['F']] := by
    decide
  have htr : (create_chord_progression "C-G-Am-F" "arpeggio" 60 4 b none).trace
      = c5ExpectedTrace b := by
    simp only [create_chord_progression, c5ExpectedTrace, hr, hs]
    simp +decide only [playChordsActs, playChordActs, arpActs, splitRoot,
      chordIntervals, assocL, note_to_semitone, chord_types, clampZ, clampQ,
      List.flatMap, c5Pair]
    norm_num [actsToTrace, c5Pair, c5NewTime]
  refine ⟨htr, rfl, ?_, ?_, ?_⟩
  · rw [htr]
    norm_num [c5ExpectedTrace, c5Pair, hr, List.flatMap, countNewTotal, isNewCmd,
      List.filter]
  · rw [htr]
    norm_num [c5ExpectedTrace, c5Pair, hr, List.flatMap, countFreeTotal, isFreeCmd,
      List.filter]
  · intro k hk
    interval_cases k <;> norm_num [c5NewTime]

/-- Witness for C5 at `base_id = 1000`, checking the gap equation at the
first pair boundary. -/
theorem chord_progression_c5_witness :
    c5NewTime 1 = c5NewTime 0 + 6/5 + 2/15 :=
  (chord_progression_c5 1000).2.2.2.2 0 (by norm_num)

/-- Claim C1 (code bug): `create_chord_progression` has no cleanup handler,
so a runtime failure during its scheduling loop leaks every live voice.  For
`create_chord_progression("C", "pad", 60, 4.0)` with the failure firing
during the chord-hold sleep, three voices have been created and the run
aborts without sending a single `/n_free`. -/
theorem chord_progression_fault_c1 :
    (create_chord_progression "C" "pad" 60 4 1000 (some 0)).aborted = true ∧
    ((create_chord_progression "C" "pad" 60 4 1000 (some 0)).trace.map
        TimedCmd.cmd) = [Cmd.sNew 1000, Cmd.sNew 1001, Cmd.sNew 1002] ∧
    countFreeTotal ((create_chord_progression "C" "pad" 60 4 1000
        (some 0)).trace.map TimedCmd.cmd) = 0 := by
  have hs : splitOnDash ("C".toList) = [['C']] := by decide
  refine ⟨?_, ?_, ?_⟩ <;>
    · simp only [create_chord_progression, hs]
      simp +decide only [playChordsActs, playChordActs, createN, freeActs,
        splitRoot, chordIntervals, assocL, note_to_semitone, chord_types,
        clampZ, clampQ, truncAtSleep, countSleeps, actsToTrace,
        countFreeTotal, isFreeCmd, List.filter, List.map, List.length]

/-- Claim C7: for waveform `sine` the parameter value sent at elapsed time
`t` is `min + ((sin(2π·rate·t) + 1)/2) · (max - min)`, and every
unrecognized waveform kind produces exactly the sine values. -/
theorem lfo_sine_default_c7 (sinf : ℚ → ℚ) (piv rate stepT t minv maxv draw : ℚ)
    (prev : Option ℚ) :
    lfoParamValue minv maxv (lfoSample sinf piv "sine" rate stepT t prev draw)
        = some (minv + ((sinf (2 * piv * rate * t) + 1) / 2) * (maxv - minv)) ∧
    (∀ w : String, w ≠ "sine" → w ≠ "triangle" → w ≠ "square" → w ≠ "random" →
       lfoSample sinf piv w rate stepT t prev draw
         = lfoSample sinf piv "sine" rate stepT t prev draw) := by
  constructor
  · have h : t * rate * 2 * piv = 2 * piv * rate * t := by ring
    simp [lfoSample, lfoParamValue, h]
  · intro w h1 h2 h3 h4
    simp [lfoSample, h1, h2, h3, h4]

/-- Witness for C7: the unrecognized waveform kind `xyz` samples exactly as
`sine` does. -/
theorem lfo_sine_default_c7_witness :
    lfoSample (fun q => q) 3 "xyz" 1 (1/20) 1 none 0
      = lfoSample (fun q => q) 3 "sine" 1 (1/20) 1 none 0 :=
  (lfo_sine_default_c7 (fun q => q) 3 1 (1/20) 1 0 1 0 none).2 "xyz"
    (by decide) (by decide) (by decide) (by decide)

/-- Claim C3 counterexample: with the in-range rate 0.5 Hz, two consecutive
ticks spaced `step_time = 1/20` apart fall in the same LFO cycle (both have
cycle index 0), yet each draws a fresh random value — the emitted value
changes inside a cycle, because the code compares the phase (a cycle
fraction) against `step_time` (seconds). -/
theorem lfo_random_c3_counterexample :
    (1/100 : ℚ) ≤ 1/2 ∧ (1/2 : ℚ) ≤ 10 ∧
    lfoStepTime (1/2) = 1/20 ∧
    ⌊(0 : ℚ) * (1/2)⌋ = ⌊(1/20 : ℚ) * (1/2)⌋ ∧
    lfoRun (fun q => q) 0 "random" (1/2) (lfoStepTime (1/2)) none
        [(0, 0), (1/20, 1/2)] = [some 0, some (1/2)] ∧
    (some (0 : ℚ) ≠ some (1/2 : ℚ)) := by
  refine ⟨by norm_num, by norm_num, by norm_num [lfoStepTime], by norm_num, ?_,
    by norm_num⟩
  simp +decide only [lfoRun, lfoSample]
  norm_num [lfoStepTime, pymod1]

/-- Claim C3 amended: the random waveform redraws at every tick whose cycle
phase `(elapsed·rate) % 1` is below `step_time`, and holds the previous
value at every tick whose phase is at least `step_time`; since the phase is
a cycle fraction while `step_time` is in seconds, rates below 1 Hz admit
several draws per cycle (see the counterexample), so the value is constant
between redraw ticks but not necessarily from the second tick of a cycle
onward. -/
theorem lfo_random_hold_c3_amended (sinf : ℚ → ℚ) (piv rate stepT : ℚ)
    (v0 : Option ℚ) (ticks : List (ℚ × ℚ)) (i : ℕ) (e d : ℚ)
    (hget : ticks.get? (i + 1) = some (e, d))
    (hph : stepT ≤ pymod1 (e * rate)) :
    (lfoRun sinf piv "random" rate stepT v0 ticks).get? (i + 1)
      = (lfoRun sinf piv "random" rate stepT v0 ticks).get? i := by
  induction ticks generalizing v0 i with
  | nil => simp at hget
  | cons hd tl ih =>
    cases i with
    | zero =>
      cases tl with
      | nil => simp at hget
      | cons hd2 tl2 =>
        simp only [List.get?] at hget
        obtain rfl : hd2 = (e, d) := by
          cases hget
          rfl
        simp only [lfoRun, List.get?]
        simp [lfoSample, if_neg (not_lt.mpr hph)]
    | succ j =>
      simp only [lfoRun, List.get?]
      exact ih _ _ (by simpa using hget)

/-- Witness for the amended C3: at rate 1/4 Hz the tick at elapsed time 1
has phase `1/4 ≥ step_time`, so it holds the value drawn at time 0. -/
theorem lfo_random_hold_c3_amended_witness :
    (lfoRun (fun q => q) 0 "random" (1/4) (1/20) none [(0, 0), (1, 5)]).get? 1
      = (lfoRun (fun q => q) 0 "random" (1/4) (1/20) none [(0, 0), (1, 5)]).get? 0 :=
  lfo_random_hold_c3_amended (fun q => q) 0 (1/4) (1/20) none [(0, 0), (1, 5)] 0 1 5
    rfl (by norm_num [pymod1])

/-- Claim C6: with an effective `variation_rate` of 0 the evolution step
never fires (every `random.random()` draw is non-negative, so never below
0), hence after any number of beats all three patterns are identical to
their initial state. -/
theorem rhythm_variation_zero_c6 (cx : ℚ) (gates : ℕ → ℚ)
    (kds sds hds : ℕ → ℕ → ℚ) (hg : ∀ k, 0 ≤ gates k) :
    ∀ (n beat : ℕ) (ps : RhythmPatterns),
      rhythmPatternsRun 0 cx gates kds sds hds beat n ps = ps := by
  intro n
  induction n with
  | zero => intro beat ps; rfl
  | succ m ih =>
    intro beat ps
    have hstep : beatStep 0 cx (gates beat) (kds beat) (sds beat) (hds beat)
        beat ps = ps :=
      if_neg fun hc => absurd hc.2 (not_lt.mpr (hg beat))
    calc rhythmPatternsRun 0 cx gates kds sds hds beat (m + 1) ps
        = rhythmPatternsRun 0 cx gates kds sds hds (beat + 1) m
            (beatStep 0 cx (gates beat) (kds beat) (sds beat) (hds beat) beat ps) := rfl
      _ = ps := by rw [hstep]; exact ih (beat + 1) ps

/-- Witness for C6: 64 beats on the `minimal` style's initial patterns with
all draws equal to 1/2 leave the patterns untouched. -/
theorem rhythm_variation_zero_c6_witness :
    rhythmPatternsRun 0 (3/10) (fun _ => 1/2) (fun _ _ => 1/2) (fun _ _ => 1/2)
        (fun _ _ => 1/2) 0 64 minimalPatterns = minimalPatterns :=
  rhythm_variation_zero_c6 (3/10) (fun _ => 1/2) (fun _ _ => 1/2) (fun _ _ => 1/2)
    (fun _ _ => 1/2) (fun k => by norm_num) 64 0 minimalPatterns

/-- Splitting a list by a boolean predicate splits any `countP`. -/
theorem countP_partition {α : Type} (q p : α → Bool) (l : List α) :
    (l.filter q).countP p + (l.filter fun a => ! q a).countP p = l.countP p := by
  induction l with
  | nil => rfl
  | cons hd tl ih =>
    by_cases hq : q hd <;> by_cases hp : p hd <;>
      simp [List.filter_cons, List.countP_cons, hq, hp] <;> omega

/-- The expiry sweep preserves each id's multiplicity. -/
theorem idCount_expireSplit (c : ℚ) (l : List (ℕ × ℚ)) (id : ℕ) :
    idCount (expireSplit c l).1 id + idCount (expireSplit c l).2 id
      = idCount l id := by
  simpa [expireSplit, idCount] using
    countP_partition (fun p : ℕ × ℚ => decide (p.2 ≤ c))
      (fun p => decide (p.1 = id)) l

/-- Appending one fresh grain adds one occurrence of its id. -/
theorem idCount_append_single (l : List (ℕ × ℚ)) (a : ℕ) (t : ℚ) (id : ℕ) :
    idCount (l ++ [(a, t)]) id = idCount l id + if a = id then 1 else 0 := by
  by_cases h : a = id <;> simp [idCount, List.countP_append, List.countP_cons, h]

/-- A list of frees contains no creates. -/
theorem count_sNew_map_nFree (l : List (ℕ × ℚ)) (id : ℕ) :
    (l.map fun p => Cmd.nFree p.1).count (Cmd.sNew id) = 0 := by
  induction l with
  | nil => rfl
  | cons hd tl ih => simp [List.count_cons, ih]

/-- Frees of a pair list count its id occurrences. -/
theorem count_nFree_map_nFree (l : List (ℕ × ℚ)) (id : ℕ) :
    (l.map fun p => Cmd.nFree p.1).count (Cmd.nFree id) = idCount l id := by
  induction l with
  | nil => rfl
  | cons hd tl ih =>
    by_cases h : hd.1 = id <;>
      simp [List.count_cons, List.countP_cons, idCount, h] at ih ⊢ <;> omega

/-- Per-id create/free balance of the granular loop: creates plus ids active
on entry equal frees plus ids active on exit, for every id. -/
theorem granLoop_balance (psv gsize endT : ℚ) (iters : List GrainIter) :
    ∀ (nextId : ℕ) (active : List (ℕ × ℚ)) (id : ℕ),
      (granLoop psv gsize endT nextId active iters).1.count (Cmd.sNew id)
          + idCount active id
        = (granLoop psv gsize endT nextId active iters).1.count (Cmd.nFree id)
          + idCount (granLoop psv gsize endT nextId active iters).2.1 id := by
  induction iters with
  | nil => intro nextId active id; simp [granLoop]
  | cons it rest ih =>
    intro nextId active id
    by_cases hc : it.tCheck < endT
    · rw [granLoop, if_pos hc]
      cases hgf : grainAmpFactor (1 + (it.draw * 2 - 1) * psv) psv with
      | error e => simp
      | ok v =>
        simp only
        have hsplit := idCount_expireSplit it.tExpire
          (active ++ [(nextId, it.tAfter + gsize)]) id
        have happ := idCount_append_single active nextId (it.tAfter + gsize) id
        have hib := ih (nextId + 1)
          (expireSplit it.tExpire (active ++ [(nextId, it.tAfter + gsize)])).2 id
        simp only [List.count_cons, List.count_append, count_sNew_map_nFree,
          count_nFree_map_nFree]
        rcases eq_or_ne nextId id with hid | hid
        · subst hid
          simp at happ
          simp
          omega
        · simp only [if_neg hid] at happ
          simp [Cmd.sNew.injEq, hid]
          omega
    · rw [granLoop, if_neg hc]
      simp

/-- The expiry sweep preserves the number of active grains. -/
theorem length_expireSplit (c : ℚ) (l : List (ℕ × ℚ)) :
    (expireSplit c l).1.length + (expireSplit c l).2.length = l.length := by
  unfold expireSplit
  induction l with
  | nil => rfl
  | cons hd tl ih =>
    by_cases hq : (decide (hd.2 ≤ c) : Bool) <;>
      simp [List.filter_cons, hq] at ih ⊢ <;> omega

/-- A list of frees has no creates and as many frees as elements. -/
theorem totals_map_nFree (l : List (ℕ × ℚ)) :
    countNewTotal (l.map fun p => Cmd.nFree p.1) = 0 ∧
    countFreeTotal (l.map fun p => Cmd.nFree p.1) = l.length := by
  constructor <;>
    simp [countNewTotal, countFreeTotal, ← List.countP_eq_length_filter,
      List.countP_map, isNewCmd, isFreeCmd, Function.comp]

/-- Total create/free balance of the granular loop: creates plus grains
active on entry equal frees plus grains active on exit. -/
theorem granLoop_total (psv gsize endT : ℚ) (iters : List GrainIter) :
    ∀ (nextId : ℕ) (active : List (ℕ × ℚ)),
      countNewTotal (granLoop psv gsize endT nextId active iters).1
          + active.length
        = countFreeTotal (granLoop psv gsize endT nextId active iters).1
          + (granLoop psv gsize endT nextId active iters).2.1.length := by
  induction iters with
  | nil => intro nextId active; simp [granLoop, countNewTotal, countFreeTotal]
  | cons it rest ih =>
    intro nextId active
    by_cases hc : it.tCheck < endT
    · rw [granLoop, if_pos hc]
      cases hgf : grainAmpFactor (1 + (it.draw * 2 - 1) * psv) psv with
      | error e => simp [countNewTotal, countFreeTotal]
      | ok v =>
        simp only
        have hlen := length_expireSplit it.tExpire
          (active ++ [(nextId, it.tAfter + gsize)])
        have htot := totals_map_nFree
          (expireSplit it.tExpire (active ++ [(nextId, it.tAfter + gsize)])).1
        have hib := ih (nextId + 1)
          (expireSplit it.tExpire (active ++ [(nextId, it.tAfter + gsize)])).2
        simp only [countNewTotal, countFreeTotal, List.filter_cons,
          List.filter_append, List.length_append, isNewCmd, isFreeCmd]
          at htot hib ⊢
        simp at hlen ⊢
        omega
    · rw [granLoop, if_neg hc]
      simp [countNewTotal, countFreeTotal]

/-- Each id is created at most once by the granular loop (ids increase
strictly), and never if it is below the loop's starting id. -/
theorem granLoop_new_count (psv gsize endT : ℚ) (iters : List GrainIter) :
    ∀ (nextId : ℕ) (active : List (ℕ × ℚ)) (id : ℕ),
      (granLoop psv gsize endT nextId active iters).1.count (Cmd.sNew id) ≤ 1 ∧
      (id < nextId →
        (granLoop psv gsize endT nextId active iters).1.count (Cmd.sNew id) = 0) := by
  induction iters with
  | nil => intro nextId active id; simp [granLoop]
  | cons it rest ih =>
    intro nextId active id
    by_cases hc : it.tCheck < endT
    · rw [granLoop, if_pos hc]
      cases hgf : grainAmpFactor (1 + (it.draw * 2 - 1) * psv) psv with
      | error e => simp
      | ok v =>
        simp only
        have hib := ih (nextId + 1)
          (expireSplit it.tExpire (active ++ [(nextId, it.tAfter + gsize)])).2 id
        simp only [List.count_cons, List.count_append, count_sNew_map_nFree]
          at hib ⊢
        rcases eq_or_ne nextId id with hid | hid
        · subst hid
          simp
          omega
        · simp [Cmd.sNew.injEq, hid]
          omega
    · rw [granLoop, if_neg hc]
      simp

/-- A list of frees of plain ids has no creates. -/
theorem count_sNew_map_nFree_nat (l : List ℕ) (id : ℕ) :
    (l.map Cmd.nFree).count (Cmd.sNew id) = 0 := by
  induction l with
  | nil => rfl
  | cons hd tl ih => simp [List.count_cons, ih]

/-- Frees of an id list count the id's occurrences. -/
theorem count_nFree_map_nFree_nat (l : List ℕ) (id : ℕ) :
    (l.map Cmd.nFree).count (Cmd.nFree id) = l.count id := by
  induction l with
  | nil => rfl
  | cons hd tl ih =>
    by_cases h : hd = id <;> simp [List.count_cons, h, ih]

/-- A list of frees of plain ids has as many frees as elements. -/
theorem totals_map_nFree_nat (l : List ℕ) :
    countNewTotal (l.map Cmd.nFree) = 0 ∧
    countFreeTotal (l.map Cmd.nFree) = l.length := by
  constructor <;>
    simp [countNewTotal, countFreeTotal, ← List.countP_eq_length_filter,
      List.countP_map, isNewCmd, isFreeCmd, Function.comp]

/-- Removing a just-appended id cancels it in every id's multiplicity. -/
theorem count_append_erase (active : List ℕ) (eid id : ℕ) :
    ((active ++ [eid]).erase eid).count id = active.count id := by
  rcases eq_or_ne eid id with h | h
  · subst h
    rw [List.count_erase_self]
    simp [List.count_append]
  · rw [List.count_erase_of_ne (fun hh => h hh.symm)]
    simp [List.count_append, List.count_singleton', h]

/-- Removing a just-appended id restores the active count. -/
theorem length_append_erase (active : List ℕ) (eid : ℕ) :
    ((active ++ [eid]).erase eid).length = active.length := by
  have hm : eid ∈ active ++ [eid] := by simp
  rw [List.length_erase_of_mem hm]
  simp

/-- Per-id create/free balance of the ambient event loop. -/
theorem ambLoop_balance (base : ℕ) (iters : List AmbIter) :
    ∀ (i : ℕ) (active : List ℕ) (id : ℕ),
      (ambLoop base iters i active).1.count (Cmd.sNew id) + active.count id
        = (ambLoop base iters i active).1.count (Cmd.nFree id)
          + (ambLoop base iters i active).2.count id := by
  induction iters with
  | nil => intro i active id; simp [ambLoop]
  | cons it rest ih =>
    intro i active id
    rw [ambLoop]
    by_cases hb : it.earlyBreak <;> simp only [hb, if_true, if_false, Bool.false_eq_true]
    · simp
    · by_cases hs : it.skipEv <;> simp only [hs, if_true, if_false, Bool.false_eq_true]
      · exact ih (i + 1) active id
      · by_cases hf : it.freeNow <;> simp only [hf, if_true, if_false, Bool.false_eq_true]
        · have hib := ih (i + 1) ((active ++ [base + 100 + i]).erase (base + 100 + i)) id
          have her := count_append_erase active (base + 100 + i) id
          rw [her] at hib
          simp only [List.count_cons]
          rcases eq_or_ne (base + 100 + i) id with hid | hid
          · subst hid
            simp
            omega
          · simp [hid]
            omega
        · have hib := ih (i + 1) (active ++ [base + 100 + i]) id
          simp only [List.count_append, List.count_singleton'] at hib
          simp only [List.count_cons]
          rcases eq_or_ne (base + 100 + i) id with hid | hid
          · subst hid
            simp at hib ⊢
            omega
          · simp [hid] at hib ⊢
            omega

/-- Total create/free balance of the ambient event loop. -/
theorem ambLoop_total (base : ℕ) (iters : List AmbIter) :
    ∀ (i : ℕ) (active : List ℕ),
      countNewTotal (ambLoop base iters i active).1 + active.length
        = countFreeTotal (ambLoop base iters i active).1
          + (ambLoop base iters i active).2.length := by
  induction iters with
  | nil => intro i active; simp [ambLoop, countNewTotal, countFreeTotal]
  | cons it rest ih =>
    intro i active
    rw [ambLoop]
    by_cases hb : it.earlyBreak <;> simp only [hb, if_true, if_false, Bool.false_eq_true]
    · simp [countNewTotal, countFreeTotal]
    · by_cases hs : it.skipEv <;> simp only [hs, if_true, if_false, Bool.false_eq_true]
      · exact ih (i + 1) active
      · by_cases hf : it.freeNow <;> simp only [hf, if_true, if_false, Bool.false_eq_true]
        · have hib := ih (i + 1) ((active ++ [base + 100 + i]).erase (base + 100 + i))
          rw [length_append_erase] at hib
          simp only [countNewTotal, countFreeTotal, List.filter_cons, isNewCmd,
            isFreeCmd] at hib ⊢
          simp at hib ⊢
          omega
        · have hib := ih (i + 1) (active ++ [base + 100 + i])
          simp only [countNewTotal, countFreeTotal, List.filter_cons, isNewCmd,
            isFreeCmd, List.length_append] at hib ⊢
          simp at hib ⊢
          omega

/-- Each id is created at most once by the ambient event loop (event numbers
increase strictly), and never if it is below `base + 100 + i`. -/
theorem ambLoop_new_count (base : ℕ) (iters : List AmbIter) :
    ∀ (i : ℕ) (active : List ℕ) (id : ℕ),
      (ambLoop base iters i active).1.count (Cmd.sNew id) ≤ 1 ∧
      (id < base + 100 + i →
        (ambLoop base iters i active).1.count (Cmd.sNew id) = 0) := by
  induction iters with
  | nil => intro i active id; simp [ambLoop]
  | cons it rest ih =>
    intro i active id
    rw [ambLoop]
    by_cases hb : it.earlyBreak <;> simp only [hb, if_true, if_false, Bool.false_eq_true]
    · simp
    · by_cases hs : it.skipEv <;> simp only [hs, if_true, if_false, Bool.false_eq_true]
      · have hib := ih (i + 1) active id
        refine ⟨hib.1, fun hlt => hib.2 (by omega)⟩
      · by_cases hf : it.freeNow <;> simp only [hf, if_true, if_false, Bool.false_eq_true]
        · have hib := ih (i + 1)
            ((active ++ [base + 100 + i]).erase (base + 100 + i)) id
          simp only [List.count_cons]
          rcases eq_or_ne (base + 100 + i) id with hid | hid
          · have h0 := hib.2 (by omega)
            subst hid
            simp [h0]
          · simp [hid]
            refine ⟨hib.1, fun hlt => hib.2 (by omega)⟩
        · have hib := ih (i + 1) (active ++ [base + 100 + i]) id
          simp only [List.count_cons]
          rcases eq_or_ne (base + 100 + i) id with hid | hid
          · have h0 := hib.2 (by omega)
            subst hid
            simp [h0]
          · simp [hid]
            refine ⟨hib.1, fun hlt => hib.2 (by omega)⟩

/-- Filtered totals distribute over appending traces. -/
theorem countTotals_append (l1 l2 : List Cmd) :
    countNewTotal (l1 ++ l2) = countNewTotal l1 + countNewTotal l2 ∧
    countFreeTotal (l1 ++ l2) = countFreeTotal l1 + countFreeTotal l2 := by
  constructor <;> simp [countNewTotal, countFreeTotal, List.filter_append]

/-- Claim C2: for the granular-texture and ambient-soundscape tools, any
invocation that returns normally has sent at least as many `/n_free` as
`/s_new` commands, and every id that appeared in an `/s_new` appears in
exactly one `/n_free` (each id is created at most once, and its create/free
counts coincide). -/
theorem voice_balance_c2 :
    (∀ (density grainSize pitchSpread duration t0 : ℚ) (sid : ℕ)
       (iters : List GrainIter),
       (create_granular_texture density grainSize pitchSpread duration t0 sid
           iters).err = false →
       (∀ id,
          (create_granular_texture density grainSize pitchSpread duration t0
              sid iters).trace.count (Cmd.sNew id)
            = (create_granular_texture density grainSize pitchSpread duration
                t0 sid iters).trace.count (Cmd.nFree id) ∧
          (create_granular_texture density grainSize pitchSpread duration t0
              sid iters).trace.count (Cmd.sNew id) ≤ 1) ∧
       countNewTotal (create_granular_texture density grainSize pitchSpread
           duration t0 sid iters).trace
         ≤ countFreeTotal (create_granular_texture density grainSize
             pitchSpread duration t0 sid iters).trace) ∧
    (∀ (base : ℕ) (iters : List AmbIter),
       (∀ id,
          (create_ambient_soundscape base iters).count (Cmd.sNew id)
            = (create_ambient_soundscape base iters).count (Cmd.nFree id) ∧
          (create_ambient_soundscape base iters).count (Cmd.sNew id) ≤ 1) ∧
       countNewTotal (create_ambient_soundscape base iters)
         ≤ countFreeTotal (create_ambient_soundscape base iters)) := by
  constructor
  · intro density grainSize pitchSpread duration t0 sid iters _herr
    constructor
    · intro id
      have hbal := granLoop_balance (clampQ 0 1 pitchSpread)
        (clampQ (1/100) (1/2) grainSize * (6/5 - clampQ (1/10) 1 density * (1/5)))
        (t0 + clampQ 1 30 duration) iters sid [] id
      have hcnt := granLoop_new_count (clampQ 0 1 pitchSpread)
        (clampQ (1/100) (1/2) grainSize * (6/5 - clampQ (1/10) 1 density * (1/5)))
        (t0 + clampQ 1 30 duration) iters sid [] id
      have h0 : idCount ([] : List (ℕ × ℚ)) id = 0 := rfl
      rw [h0] at hbal
      simp only [create_granular_texture, List.count_append,
        count_sNew_map_nFree, count_nFree_map_nFree]
      exact ⟨by omega, hcnt.1⟩
    · have htot := granLoop_total (clampQ 0 1 pitchSpread)
        (clampQ (1/100) (1/2) grainSize * (6/5 - clampQ (1/10) 1 density * (1/5)))
        (t0 + clampQ 1 30 duration) iters sid []
      have hmap := totals_map_nFree (granLoop (clampQ 0 1 pitchSpread)
        (clampQ (1/100) (1/2) grainSize * (6/5 - clampQ (1/10) 1 density * (1/5)))
        (t0 + clampQ 1 30 duration) sid [] iters).2.1
      have happ := countTotals_append (granLoop (clampQ 0 1 pitchSpread)
        (clampQ (1/100) (1/2) grainSize * (6/5 - clampQ (1/10) 1 density * (1/5)))
        (t0 + clampQ 1 30 duration) sid [] iters).1
        ((granLoop (clampQ 0 1 pitchSpread)
          (clampQ (1/100) (1/2) grainSize * (6/5 - clampQ (1/10) 1 density * (1/5)))
          (t0 + clampQ 1 30 duration) sid [] iters).2.1.map
            fun p => Cmd.nFree p.1)
      simp only [List.length_nil] at htot
      simp only [create_granular_texture]
      rw [(countTotals_append _ _).1, (countTotals_append _ _).2, hmap.1, hmap.2]
      omega
  · intro base iters
    constructor
    · intro id
      have hbal := ambLoop_balance base iters 0 [base] id
      have hcnt := ambLoop_new_count base iters 0 [base] id
      simp only [create_ambient_soundscape, List.count_cons, List.count_append,
        count_sNew_map_nFree_nat, count_nFree_map_nFree_nat]
      rcases eq_or_ne base id with hid | hid
      · subst hid
        have h0 := hcnt.2 (by omega)
        simp [List.count_singleton'] at hbal ⊢
        omega
      · simp [List.count_singleton', hid] at hbal ⊢
        refine ⟨by omega, hcnt.1⟩
    · have htot := ambLoop_total base iters 0 [base]
      have hmap := totals_map_nFree_nat (ambLoop base iters 0 [base]).2
      have happ := countTotals_append (ambLoop base iters 0 [base]).1
        ((ambLoop base iters 0 [base]).2.map Cmd.nFree)
      simp only [List.length_singleton] at htot
      have hcn : ∀ l, countNewTotal (Cmd.sNew base :: l) = countNewTotal l + 1 :=
        fun l => by simp [countNewTotal, List.filter_cons, isNewCmd]
      have hcf : ∀ l, countFreeTotal (Cmd.sNew base :: l) = countFreeTotal l :=
        fun l => by simp [countFreeTotal, List.filter_cons, isFreeCmd]
      simp only [create_ambient_soundscape]
      rw [hcn, hcf, (countTotals_append _ _).1, (countTotals_append _ _).2,
        hmap.1, hmap.2]
      omega

/-- Witness for C2: a one-grain granular run returns normally and frees its
single created voice exactly once. -/
theorem voice_balance_c2_witness :
    (create_granular_texture 1 (1/10) (1/2) 10 0 5000 [⟨0, 1/2, 0, 0⟩]).err
        = false ∧
    (create_granular_texture 1 (1/10) (1/2) 10 0 5000
        [⟨0, 1/2, 0, 0⟩]).trace.count (Cmd.sNew 5000)
      = (create_granular_texture 1 (1/10) (1/2) 10 0 5000
          [⟨0, 1/2, 0, 0⟩]).trace.count (Cmd.nFree 5000) :=
  have herr : (create_granular_texture 1 (1/10) (1/2) 10 0 5000
      [⟨0, 1/2, 0, 0⟩]).err = false := by
    norm_num [create_granular_texture, granLoop, grainAmpFactor, pydiv,
      clampQ, max_def, min_def, expireSplit, Except.map]
  ⟨herr, ((voice_balance_c2.1 1 (1/10) (1/2) 10 0 5000 [⟨0, 1/2, 0, 0⟩]
      herr).1 5000).1⟩

/-- Claim C9: `pitch_spread = 0` (inside the documented range 0.0-1.0, and
the clamp image of every negative input) makes `create_granular_texture`
raise `ZeroDivisionError` while computing the first grain's amplitude
factor, before sending any `/s_new`: the run errors with an empty trace. -/
theorem granular_divzero_c9 :
    (∀ x : ℚ, x < 0 → clampQ 0 1 x = 0) ∧
    clampQ 0 1 0 = 0 ∧
    grainAmpFactor (1 + (1/2 * 2 - 1) * 0) 0
        = Except.error "float division by zero" ∧
    create_granular_texture (1/2) (1/10) (-(1/2)) 10 0 5000 [⟨0, 1/2, 0, 0⟩]
        = ⟨[], true⟩ := by
  refine ⟨fun x hx => max_eq_left (le_trans (min_le_right 1 x) (le_of_lt hx)),
    by norm_num [clampQ], by norm_num [grainAmpFactor, pydiv, Except.map], ?_⟩
  norm_num [create_granular_texture, granLoop, grainAmpFactor, pydiv, clampQ,
    max_def, min_def, Except.map]

/-- Witness for C9: the clamp sends the negative input `-1/2` to 0. -/
theorem granular_divzero_c9_witness :
    clampQ 0 1 (-(1/2)) = 0 :=
  granular_divzero_c9.1 (-(1/2)) (by norm_num)
